import Mathlib

/-!
Verification of the YuJian-Lab real-time fan-out hub.

Shallow embedding of the repository's message-system components:

* `BSched`  — the bounded broadcast scheduler (broadcast-scheduler.ts):
  priority displacement on a full queue.
* `Sched`   — the server-side broadcast scheduler (the WebSocket backend
  scheduler): sort, batch, group-by-type, merged envelopes.
* `MRouter` — the message router (message-router.js): reserved types.
* `WSClient` — the client mirror (the frontend WebSocketClient):
  reconnect backoff, offline queue flush, message dispatch.
* `CDet`    — the change detector (change-detector.ts): status diffing,
  priority calculation, health level state machine.

Opaque payloads (TypeScript `any` / `unknown`) are modelled by a type
parameter; JavaScript numbers are modelled by rationals (only order
comparisons and exact arithmetic occur in the verified code paths).
-/

namespace BSched

/-- Priorities of broadcast-scheduler.ts: high, medium, low. -/
inductive Priority where
  | high : Priority
  | medium : Priority
  | low : Priority
deriving DecidableEq, Repr

/-- Numeric order used by insertByPriority: high 0, medium 1, low 2. -/
def priorityOrder : Priority → Nat
  | .high => 0
  | .medium => 1
  | .low => 2

/-- BroadcastMessage of broadcast-scheduler.ts; the content field of type
any is a type parameter. -/
structure Msg (α : Type) where
  id : String
  type : String
  content : α
  priority : Priority
  timestamp : Nat
deriving Repr, DecidableEq

variable {α : Type}

/-- insertByPriority: insert before the first queued message whose
priority order is strictly greater (findIndex + splice), else push. -/
def insertByPriority : List (Msg α) → Msg α → List (Msg α)
  | [], m => [m]
  | x :: xs, m =>
    if priorityOrder m.priority < priorityOrder x.priority then m :: x :: xs
    else x :: insertByPriority xs m

/-- Remove the first element satisfying p (findIndex + splice(i,1));
identity when no element matches. -/
def eraseFirstWith (p : Msg α → Bool) : List (Msg α) → List (Msg α)
  | [] => []
  | x :: xs => if p x then xs else x :: eraseFirstWith p xs

/-- enqueue of broadcast-scheduler.ts.  Returns the accepted flag and the
new queue.  When the queue is full: evict the first low-priority message
if the incoming one is not low; reject an incoming low; evict the first
medium for an incoming high; otherwise reject. -/
def enqueue (maxQueueSize : Nat) (q : List (Msg α)) (m : Msg α) :
    Bool × List (Msg α) :=
  if maxQueueSize ≤ q.length then
    if q.any (fun x => x.priority = .low) ∧ m.priority ≠ .low then
      (true, insertByPriority (eraseFirstWith (fun x => x.priority = .low) q) m)
    else if m.priority = .low then
      (false, q)
    else if q.any (fun x => x.priority = .medium) ∧ m.priority = .high then
      (true, insertByPriority (eraseFirstWith (fun x => x.priority = .medium) q) m)
    else
      (false, q)
  else
    (true, insertByPriority q m)

/-- Fold a sequence of enqueue operations over a starting queue. -/
def enqueueAll (maxQueueSize : Nat) (q : List (Msg α)) (ms : List (Msg α)) :
    List (Msg α) :=
  ms.foldl (fun acc m => (enqueue maxQueueSize acc m).2) q

/-- The order maintained inside the queue: nondecreasing priority order,
ties in nondecreasing timestamp. -/
def msgLE (a b : Msg α) : Prop :=
  priorityOrder a.priority < priorityOrder b.priority ∨
    (priorityOrder a.priority = priorityOrder b.priority ∧ a.timestamp ≤ b.timestamp)

instance msgLEDecidable : DecidableRel (@msgLE α) := by
  intro a b
  unfold msgLE
  infer_instance

end BSched

namespace Sched

/-- Message priorities of the WebSocket backend: high, normal, low. -/
inductive MPriority where
  | high : MPriority
  | normal : MPriority
  | low : MPriority
deriving DecidableEq, Repr

/-- priorityWeight of sortQueue: high 0, normal 1, low 2. -/
def priorityWeight : MPriority → Nat
  | .high => 0
  | .normal => 1
  | .low => 2

/-- BroadcastTask: one queued fan-out job; the data field of type unknown
is a type parameter. -/
structure BTask (α : Type) where
  type : String
  event : String
  data : α
  priority : MPriority
  timestamp : Nat
deriving Repr, DecidableEq

/-- One entry of the events array inside a batch_update payload. -/
structure BatchEvent (α : Type) where
  event : String
  data : α
  timestamp : Nat
deriving Repr, DecidableEq

/-- The data field of an outgoing server message: either a single task's
payload or the merged events array of a batch_update. -/
inductive SData (α : Type) where
  | plain : α → SData α
  | batch : List (BatchEvent α) → SData α
deriving Repr, DecidableEq

/-- ServerMessage envelope built by the scheduler. -/
structure ServerMessage (α : Type) where
  id : String
  type : String
  timestamp : Nat
  direction : String
  event : String
  data : SData α
deriving Repr, DecidableEq

variable {α : Type}

/-- The sortQueue comparator as a relation: ascending priorityWeight,
ties broken by ascending timestamp. -/
def taskLE (a b : BTask α) : Prop :=
  priorityWeight a.priority < priorityWeight b.priority ∨
    (priorityWeight a.priority = priorityWeight b.priority ∧ a.timestamp ≤ b.timestamp)

instance taskLEDecidable : DecidableRel (@taskLE α) := by
  intro a b
  unfold taskLE
  infer_instance

instance taskLETotal : IsTotal (BTask α) taskLE where
  total a b := by
    unfold taskLE
    omega

instance taskLETrans : IsTrans (BTask α) taskLE where
  trans a b c hab hbc := by
    unfold taskLE at *
    omega

/-- sortQueue: the queue after the stable sort by (priority, timestamp).
JavaScript sort is stable, and a stable sort by a total preorder has a
unique result, so insertion sort models it exactly. -/
def sortQueue (q : List (BTask α)) : List (BTask α) :=
  q.insertionSort taskLE

/-- The batch taken by processQueue: sort the whole queue, then splice off
the first broadcastBatchSize tasks. -/
def takeBatch (batchSize : Nat) (q : List (BTask α)) : List (BTask α) :=
  (sortQueue q).take batchSize

/-- The tasks left in the queue after processQueue splices off a batch. -/
def restAfterBatch (batchSize : Nat) (q : List (BTask α)) : List (BTask α) :=
  (sortQueue q).drop batchSize

/-- Append a task to the group keyed by its type, creating the group at
the end when absent (Map insertion order). -/
def addToGroups (groups : List (String × List (BTask α))) (t : BTask α) :
    List (String × List (BTask α)) :=
  match groups with
  | [] => [(t.type, [t])]
  | (ty, g) :: rest =>
    if ty = t.type then (ty, g ++ [t]) :: rest
    else (ty, g) :: addToGroups rest t

/-- groupByType: group the batch by task type, preserving first-seen key
order and in-batch task order. -/
def groupByType (tasks : List (BTask α)) : List (String × List (BTask α)) :=
  tasks.foldl addToGroups []

/-- Soundness of a grouping of the task list pfx: keys are distinct, every
group is exactly the tasks of its type in order, every seen type has a
group, and no group is empty. -/
def GroupsOK (pfx : List (BTask α))
    (groups : List (String × List (BTask α))) : Prop :=
  (groups.map Prod.fst).Nodup ∧
  (∀ e ∈ groups, e.2 = pfx.filter (fun t => t.type = e.1)) ∧
  (∀ t ∈ pfx, ∃ e ∈ groups, e.1 = t.type) ∧
  (∀ e ∈ groups, e.2 ≠ [])

/-- createMergedMessage: a single task keeps its own event and data; two
or more tasks merge into one batch_update carrying the ordered events
list.  The fresh id and the wall-clock instant are parameters. -/
def createMergedMessage (freshId : String) (now : Nat) (ty : String)
    (tasks : List (BTask α)) : ServerMessage α :=
  match tasks with
  | [t] =>
    { id := freshId, type := ty, timestamp := now,
      direction := "server-to-client", event := t.event, data := .plain t.data }
  | _ =>
    { id := freshId, type := ty, timestamp := now,
      direction := "server-to-client", event := "batch_update",
      data := .batch (tasks.map fun t => ⟨t.event, t.data, t.timestamp⟩) }

/-- One group's emission during broadcastBatch: its type, the grouped
tasks, the merged envelope, and the per-recipient sends (connection id
paired with the serialized payload written to its socket). -/
structure GroupEmit (α : Type) where
  type : String
  tasks : List (BTask α)
  message : ServerMessage α
  sends : List (String × String)
deriving Repr, DecidableEq

/-- The loop body of broadcastBatch over the grouped entries, indexed so
each emitted group draws its own fresh id and clock reading. -/
def broadcastGroups (subs : String → List String)
    (serialize : ServerMessage α → String)
    (freshIds : Nat → String) (clocks : Nat → Nat) :
    Nat → List (String × List (BTask α)) → List (GroupEmit α)
  | _, [] => []
  | i, (ty, g) :: rest =>
    let conns := subs ty
    if conns.isEmpty then
      broadcastGroups subs serialize freshIds clocks (i + 1) rest
    else
      let msg := createMergedMessage (freshIds i) (clocks i) ty g
      let serialized := serialize msg
      ⟨ty, g, msg, conns.map fun c => (c, serialized)⟩ ::
        broadcastGroups subs serialize freshIds clocks (i + 1) rest

/-- broadcastBatch: group the batch by type; a group whose type has no
subscribed connection is skipped; otherwise the merged envelope is
serialized once and that same string is sent to every subscriber.
subs is getConnectionsBySubscription, serialize is JSON.stringify, and
freshIds and clocks supply the per-group UUID and Date.now value. -/
def broadcastBatch (subs : String → List String)
    (serialize : ServerMessage α → String)
    (freshIds : Nat → String) (clocks : Nat → Nat)
    (tasks : List (BTask α)) : List (GroupEmit α) :=
  broadcastGroups subs serialize freshIds clocks 0 (groupByType tasks)

/-- One full drain step: take the sorted batch from the queue and emit the
grouped broadcasts for it. -/
def drainStep (batchSize : Nat) (subs : String → List String)
    (serialize : ServerMessage α → String)
    (freshIds : Nat → String) (clocks : Nat → Nat)
    (q : List (BTask α)) : List (GroupEmit α) × List (BTask α) :=
  (broadcastBatch subs serialize freshIds clocks (takeBatch batchSize q),
   restAfterBatch batchSize q)

/-- The timestamps of the events carried by a merged envelope (empty for a
single-task envelope). -/
def eventTimestamps (m : ServerMessage α) : List Nat :=
  match m.data with
  | .plain _ => []
  | .batch evs => evs.map (·.timestamp)

end Sched

namespace MRouter

/-- RESERVED_TYPES of message-router.js. -/
def RESERVED_TYPES : List String := ["error"]

/-- The subscriber registry: an association list from message type to the
registered callbacks, in insertion order (a Map of Sets); callbacks are a
type parameter. -/
abbrev Registry (κ : Type) := List (String × List κ)

variable {κ : Type}

/-- Add a callback under a type, creating the entry at the end when the
type is not yet present. -/
def addCallback (reg : Registry κ) (ty : String) (cb : κ) : Registry κ :=
  match reg with
  | [] => [(ty, [cb])]
  | (t, cbs) :: rest =>
    if t = ty then (t, cbs ++ [cb]) :: rest
    else (t, cbs) :: addCallback rest ty cb

/-- subscribe of message-router.js: a reserved type is rejected with
success false and the registry untouched; any other type records the
callback and succeeds. -/
def subscribe (reg : Registry κ) (ty : String) (cb : κ) : Bool × Registry κ :=
  if ty ∈ RESERVED_TYPES then (false, reg)
  else (true, addCallback reg ty cb)

/-- Fold a sequence of subscribe requests over a registry. -/
def subscribeAll (reg : Registry κ) (reqs : List (String × κ)) : Registry κ :=
  reqs.foldl (fun acc r => (subscribe acc r.1 r.2).2) reg

/-- getSubscriberCount: the number of callbacks registered under a type. -/
def getSubscriberCount (reg : Registry κ) (ty : String) : Nat :=
  match reg.find? (fun e => e.1 = ty) with
  | some e => e.2.length
  | none => 0

/-- The registry holds no entry for the reserved error type. -/
def errorFree (reg : Registry κ) : Prop :=
  ∀ e ∈ reg, e.1 ≠ "error"

instance errorFreeDecidable (reg : Registry κ) : Decidable (errorFree reg) := by
  unfold errorFree
  exact List.decidableBAll _ reg

end MRouter

namespace WSClient

/-- ConnectionState of the frontend client. -/
inductive ConnState where
  | disconnected : ConnState
  | connecting : ConnState
  | connected : ConnState
  | reconnecting : ConnState
deriving DecidableEq, Repr

/-- An outbound client frame; the payload is the optional types list of a
subscribe or unsubscribe request. -/
structure ClientMessage where
  id : String
  type : String
  timestamp : Nat
  action : String
  payload : Option (List String)
deriving DecidableEq, Repr

/-- The client-relevant part of an inbound, successfully parsed server
frame: its event, and the optional connectionId inside data. -/
structure InMessage where
  event : String
  connectionId : Option String
deriving DecidableEq, Repr

/-- Client options relevant to reconnection (defaults: reconnectInterval
3000 ms, maxReconnectAttempts 5). -/
structure ClientOptions where
  reconnectInterval : ℚ
  maxReconnectAttempts : Nat
deriving Repr

/-- The default option values of the client. -/
def defaultOptions : ClientOptions :=
  { reconnectInterval := 3000, maxReconnectAttempts := 5 }

/-- The mutable client state the verified handlers touch. -/
structure ClientState where
  state : ConnState
  reconnectAttempts : Nat
  lastPongTime : Nat
  messageQueue : List ClientMessage
  subscriptions : List String
  connectionId : Option String
deriving DecidableEq, Repr

/-- flushMessageQueue, run in the connected state reached by handleOpen:
with an empty offline queue it returns at once; otherwise it sends every
queued frame in FIFO order and then, when the local subscription set is
not empty, one subscribe frame naming the whole set.  Returns the state
and the frames written to the socket, in order. -/
def flushMessageQueue (freshId : String) (now : Nat) (s : ClientState) :
    ClientState × List ClientMessage :=
  if s.messageQueue.isEmpty then (s, [])
  else
    let sent := s.messageQueue
    let s := { s with messageQueue := [] }
    if s.subscriptions.isEmpty then (s, sent)
    else
      (s, sent ++ [{ id := freshId, type := "config", timestamp := now,
                     action := "subscribe", payload := some s.subscriptions }])

/-- handleOpen: mark the client connected, reset the attempt counter and
the pong clock, start the heartbeat, and flush the offline queue.
Returns the state and the frames written to the socket, in order. -/
def handleOpen (freshId : String) (now : Nat) (s : ClientState) :
    ClientState × List ClientMessage :=
  let s := { s with state := ConnState.connected, reconnectAttempts := 0,
                    lastPongTime := now }
  flushMessageQueue freshId now s

/-- The outcome of attemptReconnect: the new state, the scheduled retry
delay in milliseconds when a retry was scheduled, and whether the failure
was surfaced through the error callback. -/
structure ReconnectResult where
  state : ClientState
  delay : Option ℚ
  surfacedError : Bool
deriving Repr

/-- attemptReconnect: at or above maxReconnectAttempts, enter the terminal
disconnected state and surface the failure; otherwise bump the counter,
enter reconnecting, and schedule a retry after
min(reconnectInterval * 1.5 ^ (attempt - 1), 30000) milliseconds. -/
def attemptReconnect (opts : ClientOptions) (s : ClientState) :
    ReconnectResult :=
  if opts.maxReconnectAttempts ≤ s.reconnectAttempts then
    { state := { s with state := ConnState.disconnected },
      delay := none, surfacedError := true }
  else
    let attempts := s.reconnectAttempts + 1
    let s' : ClientState :=
      { s with state := ConnState.reconnecting, reconnectAttempts := attempts }
    { state := s',
      delay := some (min (opts.reconnectInterval * (3 / 2 : ℚ) ^ (attempts - 1)) 30000),
      surfacedError := false }

/-- handleMessage on a successfully parsed frame: a pong only refreshes
lastPongTime; a connected frame records the connectionId; every non-pong
frame is forwarded to the onMessage callback.  Returns the state and the
list of frames handed to onMessage. -/
def handleMessage (now : Nat) (s : ClientState) (m : InMessage) :
    ClientState × List InMessage :=
  if m.event = "pong" then
    ({ s with lastPongTime := now }, [])
  else
    let s :=
      if m.event = "connected" then
        match m.connectionId with
        | some cid => { s with connectionId := some cid }
        | none => s
      else s
    (s, [m])

end WSClient

namespace CDet

open Sched (MPriority)

/-- The system status fields the detector monitors. -/
inductive StatusField where
  | cpuUsage : StatusField
  | memoryUsage : StatusField
  | diskUsage : StatusField
  | activeConnections : StatusField
  | systemOnline : StatusField
deriving DecidableEq, Repr

/-- fieldsToMonitor of detectStatusChanges, in iteration order. -/
def fieldsToMonitor : List StatusField :=
  [.cpuUsage, .memoryUsage, .diskUsage, .activeConnections, .systemOnline]

/-- A JavaScript value held by a monitored field: a number or a boolean. -/
inductive JSValue where
  | num : ℚ → JSValue
  | bool : Bool → JSValue
deriving DecidableEq, Repr

/-- The monitored slice of SystemStatus. -/
structure SystemStatus where
  systemOnline : Bool
  cpuUsage : ℚ
  memoryUsage : ℚ
  diskUsage : ℚ
  activeConnections : ℚ
deriving DecidableEq, Repr

/-- Read one monitored field as a JavaScript value. -/
def statusValue (s : SystemStatus) : StatusField → JSValue
  | .cpuUsage => .num s.cpuUsage
  | .memoryUsage => .num s.memoryUsage
  | .diskUsage => .num s.diskUsage
  | .activeConnections => .num s.activeConnections
  | .systemOnline => .bool s.systemOnline

/-- One recorded field change. -/
structure Change where
  field : StatusField
  oldValue : JSValue
  newValue : JSValue
  delta : Option ℚ
deriving DecidableEq, Repr

/-- detectStatusChanges: record a change for every monitored field whose
value differs, adding the numeric delta when both values are numbers. -/
def detectStatusChanges (oldS newS : SystemStatus) : List Change :=
  fieldsToMonitor.filterMap fun f =>
    let ov := statusValue oldS f
    let nv := statusValue newS f
    if ov ≠ nv then
      some { field := f, oldValue := ov, newValue := nv,
             delta := match ov, nv with
               | .num a, .num b => some (b - a)
               | _, _ => none }
    else none

/-- Detector thresholds (defaults: cpu 80, memory 80, disk 90). -/
structure DetectorConfig where
  cpuThreshold : ℚ
  memoryThreshold : ℚ
  diskThreshold : ℚ
deriving Repr

/-- The default detector configuration. -/
def defaultConfig : DetectorConfig :=
  { cpuThreshold := 80, memoryThreshold := 80, diskThreshold := 90 }

/-- JavaScript numeric coercion of a value, as applied by the comparison
newValue as number (a boolean coerces to 0 or 1). -/
def valueAsNum : JSValue → ℚ
  | .num q => q
  | .bool b => if b then 1 else 0

/-- calculateStatusPriority: high when some changed critical field (cpu or
memory) has its new value above its threshold; normal when more than
three fields changed; low otherwise. -/
def calculateStatusPriority (cfg : DetectorConfig) (changes : List Change) :
    MPriority :=
  let hasCritical := changes.any fun c =>
    (c.field = .cpuUsage ∨ c.field = .memoryUsage) ∧
      valueAsNum c.newValue >
        (if c.field = .cpuUsage then cfg.cpuThreshold else cfg.memoryThreshold)
  if hasCritical then .high
  else if 3 < changes.length then .normal
  else .low

/-- The status_update broadcast emitted by one checkStatusChange step when
the previous sample exists, carrying the computed priority; none when no
monitored field changed. -/
def statusStep (cfg : DetectorConfig) (oldS newS : SystemStatus) :
    Option MPriority :=
  let changes := detectStatusChanges oldS newS
  if changes.isEmpty then none
  else some (calculateStatusPriority cfg changes)

/-- getAlertLevel: above threshold + 15 is critical, above the threshold
is warning, anything else is info. -/
def getAlertLevel (value threshold : ℚ) : String :=
  if value > threshold + 15 then "critical"
  else if value > threshold then "warning"
  else "info"

/-- One health event emitted by checkHealthAlerts. -/
structure HealthEmit where
  event : String
  priority : MPriority
deriving DecidableEq, Repr

/-- One checkHealthAlerts step for a single monitored component: when the
stored level (absent on the first pass) differs from the fresh one, a
non-info fresh level emits a health_alert (high only when critical) and a
return to info from a stored non-info level emits a health_recovery; the
stored entry is refreshed exactly when the level changed. -/
def healthStep (last : Option (ℚ × String)) (value threshold : ℚ) :
    List HealthEmit × Option (ℚ × String) :=
  let level := getAlertLevel value threshold
  let changed := match last with
    | none => true
    | some l => l.2 ≠ level
  if changed then
    let emits :=
      if level ≠ "info" then
        [{ event := "health_alert",
           priority := if level = "critical" then MPriority.high else MPriority.normal }]
      else
        match last with
        | some l => if l.2 ≠ "info" then [{ event := "health_recovery", priority := MPriority.normal }] else []
        | none => []
    (emits, some (value, level))
  else
    ([], last)

/-- Run healthStep over a sequence of sampled values for one component,
collecting the emitted events in order. -/
def healthRun (threshold : ℚ) (last : Option (ℚ × String)) :
    List ℚ → List HealthEmit × Option (ℚ × String)
  | [] => ([], last)
  | v :: vs =>
    let (es, st) := healthStep last v threshold
    let (rest, fin) := healthRun threshold st vs
    (es ++ rest, fin)

end CDet

namespace BSched

variable {α : Type}

theorem length_insertByPriority (q : List (Msg α)) (m : Msg α) :
    (insertByPriority q m).length = q.length + 1 := by
  induction q with
  | nil => rfl
  | cons x xs ih =>
    unfold insertByPriority
    split <;> simp [ih]

theorem perm_insertByPriority (q : List (Msg α)) (m : Msg α) :
    List.Perm (insertByPriority q m) (m :: q) := by
  induction q with
  | nil => rfl
  | cons x xs ih =>
    unfold insertByPriority
    split
    · rfl
    · exact (ih.cons x).trans (List.Perm.swap m x xs)

theorem eraseFirstWith_of_any (p : Msg α → Bool) (q : List (Msg α))
    (h : q.any p = true) :
    ∃ a l₁ l₂, q = l₁ ++ a :: l₂ ∧ p a = true ∧ (∀ b ∈ l₁, p b = false) ∧
      eraseFirstWith p q = l₁ ++ l₂ := by
  induction q with
  | nil => simp at h
  | cons x xs ih =>
    by_cases hx : p x = true
    · exact ⟨x, [], xs, by simp [hx, eraseFirstWith]⟩
    · have hx' : p x = false := by simpa using hx
      have hxs : xs.any p = true := by
        simpa [List.any_cons, hx'] using h
      obtain ⟨a, l₁, l₂, hq, hpa, hl₁, herase⟩ := ih hxs
      refine ⟨a, x :: l₁, l₂, by simp [hq], hpa, ?_, ?_⟩
      · intro b hb
        rcases List.mem_cons.mp hb with hb | hb
        · simpa [hb] using hx'
        · exact hl₁ b hb
      · simp [eraseFirstWith, hx', herase]

theorem length_eraseFirstWith_of_any (p : Msg α → Bool) (q : List (Msg α))
    (h : q.any p = true) :
    (eraseFirstWith p q).length + 1 = q.length := by
  obtain ⟨a, l₁, l₂, hq, _, _, herase⟩ := eraseFirstWith_of_any p q h
  subst hq
  simp [herase]
  omega

/-- Orderliness is preserved by insertByPriority when the incoming message
is enqueued no earlier than everything already queued. -/
theorem pairwise_insertByPriority {q : List (Msg α)} {m : Msg α}
    (hs : q.Pairwise msgLE) (hts : ∀ x ∈ q, x.timestamp ≤ m.timestamp) :
    (insertByPriority q m).Pairwise msgLE := by
  induction q with
  | nil => simp [insertByPriority, List.Pairwise]
  | cons x xs ih =>
    unfold insertByPriority
    rw [List.pairwise_cons] at hs
    split
    · rename_i hlt
      refine List.pairwise_cons.mpr ⟨?_, List.pairwise_cons.mpr hs⟩
      intro b hb
      rcases List.mem_cons.mp hb with hb | hb
      · exact Or.inl (hb ▸ hlt)
      · rcases hs.1 b hb with hlt' | ⟨heq, _⟩
        · exact Or.inl (Nat.lt_trans hlt hlt')
        · exact Or.inl (heq ▸ hlt)
    · rename_i hge
      push_neg at hge
      refine List.pairwise_cons.mpr ⟨?_, ih hs.2 (fun y hy => hts y (List.mem_cons_of_mem x hy))⟩
      intro b hb
      have hb' := (perm_insertByPriority xs m).mem_iff.mp hb
      rcases List.mem_cons.mp hb' with hb' | hb'
      · subst hb'
        rcases Nat.lt_or_ge (priorityOrder x.priority) (priorityOrder b.priority) with h | h
        · exact Or.inl h
        · exact Or.inr ⟨Nat.le_antisymm hge h, hts x (List.mem_cons_self x xs)⟩
      · exact hs.1 b hb'

theorem eraseFirstWith_sublist (p : Msg α → Bool) : (l : List (Msg α)) →
    List.Sublist (eraseFirstWith p l) l
  | [] => List.Sublist.refl []
  | x :: xs => by
    unfold eraseFirstWith
    split
    · exact List.sublist_cons_self x xs
    · exact (eraseFirstWith_sublist p xs).cons₂ x

theorem pairwise_eraseFirstWith (p : Msg α → Bool) {q : List (Msg α)}
    (hs : q.Pairwise msgLE) : (eraseFirstWith p q).Pairwise msgLE := by
  induction q with
  | nil => simp [eraseFirstWith]
  | cons x xs ih =>
    rw [List.pairwise_cons] at hs
    unfold eraseFirstWith
    split
    · exact hs.2
    · exact List.pairwise_cons.mpr
        ⟨fun b hb => hs.1 b ((List.Sublist.mem · (eraseFirstWith_sublist p xs)) hb), ih hs.2⟩

/-- Everything an accepted displacement produces: the decomposition at the
first evicted match, the permutation fact, orderliness, and the length. -/
theorem enqueue_accept_core (maxQueueSize : Nat) (p : Msg α → Bool)
    (q : List (Msg α)) (m : Msg α)
    (hlen : q.length = maxQueueSize)
    (hsorted : q.Pairwise msgLE)
    (hts : ∀ x ∈ q, x.timestamp ≤ m.timestamp)
    (hany : q.any p = true) :
    (∃ a l₁ l₂, q = l₁ ++ a :: l₂ ∧ p a = true ∧ (∀ b ∈ l₁, p b = false) ∧
       insertByPriority (eraseFirstWith p q) m = insertByPriority (l₁ ++ l₂) m) ∧
    List.Perm (insertByPriority (eraseFirstWith p q) m)
      (m :: eraseFirstWith p q) ∧
    (insertByPriority (eraseFirstWith p q) m).Pairwise msgLE ∧
    (insertByPriority (eraseFirstWith p q) m).length = maxQueueSize := by
  obtain ⟨a, l₁, l₂, hq, hpa, hl₁, herase⟩ := eraseFirstWith_of_any p q hany
  refine ⟨⟨a, l₁, l₂, hq, hpa, hl₁, by rw [herase]⟩,
    perm_insertByPriority _ m, ?_, ?_⟩
  · exact pairwise_insertByPriority (pairwise_eraseFirstWith p hsorted)
      (fun x hx => hts x ((eraseFirstWith_sublist p q).mem hx))
  · rw [length_insertByPriority, length_eraseFirstWith_of_any p q hany, hlen]

/-- The queue bound is preserved by one enqueue. -/
theorem enqueue_length_le (maxQueueSize : Nat) (q : List (Msg α)) (m : Msg α)
    (h : q.length ≤ maxQueueSize) :
    (enqueue maxQueueSize q m).2.length ≤ maxQueueSize := by
  unfold enqueue
  split
  · rename_i hfull
    have hlen : q.length = maxQueueSize := Nat.le_antisymm h hfull
    split
    · rename_i hc
      simp only
      rw [length_insertByPriority,
        length_eraseFirstWith_of_any _ _ (by simpa using hc.1), hlen]
    · split
      · simpa using h
      · split
        · rename_i hc
          simp only
          rw [length_insertByPriority,
            length_eraseFirstWith_of_any _ _ (by simpa using hc.1), hlen]
        · simpa using h
  · rename_i hnotfull
    simp only [length_insertByPriority]
    omega

theorem enqueueAll_length_le (maxQueueSize : Nat) (q : List (Msg α))
    (ms : List (Msg α)) (h : q.length ≤ maxQueueSize) :
    (enqueueAll maxQueueSize q ms).length ≤ maxQueueSize := by
  induction ms generalizing q with
  | nil => simpa [enqueueAll] using h
  | cons m ms ih =>
    have := enqueue_length_le maxQueueSize q m h
    simpa [enqueueAll, List.foldl_cons] using ih _ this

end BSched

/-- Claim C1: for every sequence of enqueue operations on the bounded
broadcast scheduler's queue, after every enqueue the queue length is at
most maxQueueSize; a single enqueue preserves the bound from any queue
within the bound, so the queue never grows past it and a full queue is
handled by the displacement rule rather than by appending. -/
theorem claim_C1_queue_bound (α : Type) (maxQueueSize : Nat)
    (ms : List (BSched.Msg α)) (q : List (BSched.Msg α)) (m : BSched.Msg α)
    (hq : q.length ≤ maxQueueSize) :
    (BSched.enqueueAll maxQueueSize [] ms).length ≤ maxQueueSize ∧
    (BSched.enqueue maxQueueSize q m).2.length ≤ maxQueueSize := by
  exact ⟨BSched.enqueueAll_length_le maxQueueSize [] ms (by simp),
    BSched.enqueue_length_le maxQueueSize q m hq⟩

/-- Witness for claim C1 at the default bound 1000: three enqueues stay
within the bound, and a single enqueue onto a queue of length one does. -/
theorem claim_C1_queue_bound_witness :
    (([⟨"a", "t", 0, BSched.Priority.low, 1⟩] : List (BSched.Msg Nat)).length ≤ 1000) ∧
    ((BSched.enqueueAll 1000 []
        [⟨"a", "t", 0, BSched.Priority.low, 1⟩,
         ⟨"b", "t", 0, BSched.Priority.high, 2⟩,
         ⟨"c", "t", 0, BSched.Priority.medium, 3⟩]).length ≤ 1000 ∧
      (BSched.enqueue 1000
        [⟨"a", "t", 0, BSched.Priority.low, 1⟩]
        ⟨"b", "t", 0, BSched.Priority.high, 2⟩).2.length ≤ 1000) := by
  refine ⟨by decide, ?_⟩
  exact claim_C1_queue_bound Nat 1000
    [⟨"a", "t", 0, BSched.Priority.low, 1⟩,
     ⟨"b", "t", 0, BSched.Priority.high, 2⟩,
     ⟨"c", "t", 0, BSched.Priority.medium, 3⟩]
    [⟨"a", "t", 0, BSched.Priority.low, 1⟩]
    ⟨"b", "t", 0, BSched.Priority.high, 2⟩ (by decide)

/-- Claim C3: enqueue on a queue exactly at maxQueueSize.  If a queued low
task exists and the incoming task is not low, the first such low task is
evicted and the incoming task is inserted in priority order (the queue
stays ordered by priority with ties in enqueue time) and accepted; an
incoming low task is rejected; otherwise, if a medium task exists and the
incoming task is high, the first medium is evicted and the task inserted;
otherwise the enqueue is rejected.  Acceptance keeps the length at
maxQueueSize. -/
theorem claim_C3_displacement (α : Type) (maxQueueSize : Nat)
    (q : List (BSched.Msg α)) (m : BSched.Msg α)
    (hlen : q.length = maxQueueSize)
    (hsorted : q.Pairwise BSched.msgLE)
    (hts : ∀ x ∈ q, x.timestamp ≤ m.timestamp) :
    (((∃ x ∈ q, x.priority = BSched.Priority.low) ∧ m.priority ≠ BSched.Priority.low) →
       (BSched.enqueue maxQueueSize q m).1 = true ∧
       (∃ a l₁ l₂, q = l₁ ++ a :: l₂ ∧ a.priority = BSched.Priority.low ∧
          (∀ b ∈ l₁, b.priority ≠ BSched.Priority.low) ∧
          (BSched.enqueue maxQueueSize q m).2 = BSched.insertByPriority (l₁ ++ l₂) m) ∧
       ((BSched.enqueue maxQueueSize q m).2).Pairwise BSched.msgLE ∧
       ((BSched.enqueue maxQueueSize q m).2).length = maxQueueSize) ∧
    (m.priority = BSched.Priority.low →
       ((∀ x ∈ q, x.priority ≠ BSched.Priority.low) ∨ m.priority = BSched.Priority.low) →
       BSched.enqueue maxQueueSize q m = (false, q)) ∧
    ((∀ x ∈ q, x.priority ≠ BSched.Priority.low) → m.priority = BSched.Priority.high →
       (∃ x ∈ q, x.priority = BSched.Priority.medium) →
       (BSched.enqueue maxQueueSize q m).1 = true ∧
       (∃ a l₁ l₂, q = l₁ ++ a :: l₂ ∧ a.priority = BSched.Priority.medium ∧
          (∀ b ∈ l₁, b.priority ≠ BSched.Priority.medium) ∧
          (BSched.enqueue maxQueueSize q m).2 = BSched.insertByPriority (l₁ ++ l₂) m) ∧
       ((BSched.enqueue maxQueueSize q m).2).Pairwise BSched.msgLE ∧
       ((BSched.enqueue maxQueueSize q m).2).length = maxQueueSize) ∧
    ((∀ x ∈ q, x.priority ≠ BSched.Priority.low) →
       m.priority ≠ BSched.Priority.low →
       ¬((∃ x ∈ q, x.priority = BSched.Priority.medium) ∧
          m.priority = BSched.Priority.high) →
       BSched.enqueue maxQueueSize q m = (false, q)) := by
  have hfull : maxQueueSize ≤ q.length := Nat.le_of_eq hlen.symm
  refine ⟨?_, ?_, ?_, ?_⟩
  · rintro ⟨hlow, hm⟩
    have hany : q.any (fun x => x.priority = BSched.Priority.low) = true := by
      simpa [List.any_eq_true] using hlow
    have hcore := BSched.enqueue_accept_core maxQueueSize
      (fun x => x.priority = BSched.Priority.low) q m hlen hsorted hts hany
    have henq : BSched.enqueue maxQueueSize q m =
        (true, BSched.insertByPriority
          (BSched.eraseFirstWith (fun x => x.priority = BSched.Priority.low) q) m) := by
      unfold BSched.enqueue
      rw [if_pos hfull, if_pos ⟨hany, hm⟩]
    rw [henq]
    obtain ⟨⟨a, l₁, l₂, hq, hpa, hl₁, hins⟩, _, hpw, hln⟩ := hcore
    exact ⟨rfl, ⟨a, l₁, l₂, hq, by simpa using hpa,
      fun b hb => by simpa using hl₁ b hb, hins⟩, hpw, hln⟩
  · intro hm _
    unfold BSched.enqueue
    rw [if_pos hfull]
    rw [if_neg (by simp [hm]), if_pos hm]
  · intro hnolow hmh hmed
    have hanymed : q.any (fun x => x.priority = BSched.Priority.medium) = true := by
      simpa [List.any_eq_true] using hmed
    have hnotany : ¬(q.any (fun x => x.priority = BSched.Priority.low) = true ∧
        m.priority ≠ BSched.Priority.low) := by
      rintro ⟨hany, -⟩
      rw [List.any_eq_true] at hany
      obtain ⟨x, hx, hpx⟩ := hany
      exact hnolow x hx (by simpa using hpx)
    have hcore := BSched.enqueue_accept_core maxQueueSize
      (fun x => x.priority = BSched.Priority.medium) q m hlen hsorted hts hanymed
    have henq : BSched.enqueue maxQueueSize q m =
        (true, BSched.insertByPriority
          (BSched.eraseFirstWith (fun x => x.priority = BSched.Priority.medium) q) m) := by
      unfold BSched.enqueue
      rw [if_pos hfull, if_neg hnotany, if_neg (by simp [hmh]), if_pos ⟨hanymed, hmh⟩]
    rw [henq]
    obtain ⟨⟨a, l₁, l₂, hq, hpa, hl₁, hins⟩, _, hpw, hln⟩ := hcore
    exact ⟨rfl, ⟨a, l₁, l₂, hq, by simpa using hpa,
      fun b hb => by simpa using hl₁ b hb, hins⟩, hpw, hln⟩
  · intro hnolow hmlow hnomed
    have hnotany : ¬(q.any (fun x => x.priority = BSched.Priority.low) = true ∧
        m.priority ≠ BSched.Priority.low) := by
      rintro ⟨hany, -⟩
      rw [List.any_eq_true] at hany
      obtain ⟨x, hx, hpx⟩ := hany
      exact hnolow x hx (by simpa using hpx)
    have hnotmed : ¬(q.any (fun x => x.priority = BSched.Priority.medium) = true ∧
        m.priority = BSched.Priority.high) := by
      rintro ⟨hany, hh⟩
      rw [List.any_eq_true] at hany
      exact hnomed ⟨by simpa [List.any_eq_true] using hany, hh⟩
    unfold BSched.enqueue
    rw [if_pos hfull, if_neg hnotany, if_neg hmlow, if_neg hnotmed]

/-- Witness for claim C3, the displacement scenario of the spec: a queue
of three low tasks at maxQueueSize three admits a high task by evicting
the first low task, and the result has length three. -/
theorem claim_C3_displacement_witness :
    (BSched.enqueue 3
      [⟨"L1", "t", 0, BSched.Priority.low, 1⟩,
       ⟨"L2", "t", 0, BSched.Priority.low, 2⟩,
       ⟨"L3", "t", 0, BSched.Priority.low, 3⟩]
      (⟨"H1", "t", 0, BSched.Priority.high, 4⟩ : BSched.Msg Nat)).1 = true ∧
    ((BSched.enqueue 3
      [⟨"L1", "t", 0, BSched.Priority.low, 1⟩,
       ⟨"L2", "t", 0, BSched.Priority.low, 2⟩,
       ⟨"L3", "t", 0, BSched.Priority.low, 3⟩]
      (⟨"H1", "t", 0, BSched.Priority.high, 4⟩ : BSched.Msg Nat)).2).length = 3 := by
  have h := claim_C3_displacement Nat 3
    [⟨"L1", "t", 0, BSched.Priority.low, 1⟩,
     ⟨"L2", "t", 0, BSched.Priority.low, 2⟩,
     ⟨"L3", "t", 0, BSched.Priority.low, 3⟩]
    ⟨"H1", "t", 0, BSched.Priority.high, 4⟩
    (by decide) (by decide) (by decide)
  have h1 := h.1 ⟨⟨⟨"L1", "t", 0, BSched.Priority.low, 1⟩, by decide, by decide⟩, by decide⟩
  exact ⟨h1.1, h1.2.2.2⟩

namespace Sched

variable {α : Type}

theorem sortQueue_perm (q : List (BTask α)) : List.Perm (sortQueue q) q :=
  List.perm_insertionSort taskLE q

theorem sortQueue_sorted (q : List (BTask α)) : (sortQueue q).Pairwise taskLE :=
  List.sorted_insertionSort taskLE q

theorem takeBatch_sorted (n : Nat) (q : List (BTask α)) :
    (takeBatch n q).Pairwise taskLE :=
  (sortQueue_sorted q).sublist (List.take_sublist n _)

theorem takeBatch_append_rest (n : Nat) (q : List (BTask α)) :
    takeBatch n q ++ restAfterBatch n q = sortQueue q :=
  List.take_append_drop n _

theorem addToGroups_of_no_key (groups : List (String × List (BTask α)))
    (t : BTask α) (h : ∀ e ∈ groups, e.1 ≠ t.type) :
    addToGroups groups t = groups ++ [(t.type, [t])] := by
  induction groups with
  | nil => rfl
  | cons e rest ih =>
    obtain ⟨ty, g⟩ := e
    have hne : ty ≠ t.type := h (ty, g) (List.mem_cons_self _ _)
    simp only [addToGroups, if_neg hne, List.cons_append, List.cons.injEq, true_and]
    exact ih fun e he => h e (List.mem_cons_of_mem _ he)

theorem addToGroups_of_key (groups : List (String × List (BTask α)))
    (t : BTask α) (hnodup : (groups.map Prod.fst).Nodup)
    (h : ∃ e ∈ groups, e.1 = t.type) :
    addToGroups groups t =
      groups.map fun e => if e.1 = t.type then (e.1, e.2 ++ [t]) else e := by
  induction groups with
  | nil => simp at h
  | cons e rest ih =>
    obtain ⟨ty, g⟩ := e
    rw [List.map_cons, List.nodup_cons] at hnodup
    by_cases hty : ty = t.type
    · have hrest : ∀ e ∈ rest, ¬(e.1 = t.type) := by
        intro e he heq
        apply hnodup.1
        have hm : e.1 ∈ List.map Prod.fst rest := List.mem_map_of_mem Prod.fst he
        rwa [heq, ← hty] at hm
      simp only [addToGroups, if_pos hty, List.map_cons, if_pos hty]
      congr 1
      exact ((List.map_congr_left fun e he =>
        (if_neg (hrest e he))).trans (List.map_id' rest)).symm
    · have hrest : ∃ e ∈ rest, e.1 = t.type := by
        rcases h with ⟨e, he, heq⟩
        rcases List.mem_cons.mp he with rfl | he
        · exact absurd heq hty
        · exact ⟨e, he, heq⟩
      simp only [addToGroups, if_neg hty, List.map_cons, if_neg hty,
        List.cons.injEq, true_and]
      exact ih hnodup.2 hrest

theorem groupsOK_add (pfx : List (BTask α))
    (groups : List (String × List (BTask α))) (t : BTask α)
    (h : GroupsOK pfx groups) : GroupsOK (pfx ++ [t]) (addToGroups groups t) := by
  obtain ⟨hnodup, hfilter, hcover, hne⟩ := h
  by_cases hkey : ∃ e ∈ groups, e.1 = t.type
  · rw [addToGroups_of_key groups t hnodup hkey]
    refine ⟨?_, ?_, ?_, ?_⟩
    · have : (List.map Prod.fst
          (groups.map fun e => if e.1 = t.type then (e.1, e.2 ++ [t]) else e)) =
          groups.map Prod.fst := by
        rw [List.map_map]
        refine List.map_congr_left fun e _ => ?_
        by_cases he : e.1 = t.type <;> simp [he]
      rw [this]
      exact hnodup
    · intro e' he'
      rw [List.mem_map] at he'
      obtain ⟨e, he, rfl⟩ := he'
      by_cases heq : e.1 = t.type
      · simp only [if_pos heq]
        rw [List.filter_append, ← hfilter e he]
        simp [heq]
      · simp only [if_neg heq]
        rw [List.filter_append, ← hfilter e he]
        have ht : List.filter (fun u => u.type = e.1) [t] = [] := by
          rw [List.filter_eq_nil_iff]
          intro u hu
          rw [List.mem_singleton] at hu
          subst hu
          simp only [decide_eq_true_eq]
          exact fun hc => heq hc.symm
        rw [ht, List.append_nil]
    · intro u hu
      rcases List.mem_append.mp hu with hu | hu
      · obtain ⟨e, he, heq⟩ := hcover u hu
        refine ⟨_, List.mem_map_of_mem _ he, ?_⟩
        show (if e.1 = t.type then (e.1, e.2 ++ [t]) else e).1 = u.type
        by_cases h1 : e.1 = t.type
        · rw [if_pos h1]
          exact heq
        · rw [if_neg h1]
          exact heq
      · have hut : u = t := List.mem_singleton.mp hu
        obtain ⟨e, he, heq⟩ := hkey
        refine ⟨_, List.mem_map_of_mem _ he, ?_⟩
        show (if e.1 = t.type then (e.1, e.2 ++ [t]) else e).1 = u.type
        rw [if_pos heq, hut]
        exact heq
    · intro e' he'
      rw [List.mem_map] at he'
      obtain ⟨e, he, rfl⟩ := he'
      show (if e.1 = t.type then (e.1, e.2 ++ [t]) else e).2 ≠ []
      by_cases heq : e.1 = t.type
      · rw [if_pos heq]
        simp
      · rw [if_neg heq]
        exact hne e he
  · push_neg at hkey
    rw [addToGroups_of_no_key groups t hkey]
    have hfilter_nil : pfx.filter (fun u => u.type = t.type) = [] := by
      rw [List.filter_eq_nil_iff]
      intro u hu
      simp only [decide_eq_true_eq]
      intro heq
      obtain ⟨e, he, hkeyeq⟩ := hcover u hu
      exact hkey e he (by rw [hkeyeq, heq])
    refine ⟨?_, ?_, ?_, ?_⟩
    · rw [List.map_append, List.nodup_append]
      refine ⟨hnodup, List.nodup_singleton _, ?_⟩
      intro k hk hk'
      simp only [List.map_cons, List.map_nil, List.mem_singleton] at hk'
      obtain ⟨e, he, rfl⟩ := List.mem_map.mp hk
      exact hkey e he hk'
    · intro e he
      rcases List.mem_append.mp he with he | he
      · rw [List.filter_append, ← hfilter e he]
        have ht2 : [t].filter (fun u => u.type = e.1) = [] := by
          rw [List.filter_eq_nil_iff]
          intro u hu
          have hut : u = t := List.mem_singleton.mp hu
          simp only [decide_eq_true_eq]
          intro heq2
          exact hkey e he (by
            rw [← hut]
            exact heq2.symm)
        rw [ht2, List.append_nil]
      · have het : e = (t.type, [t]) := List.mem_singleton.mp he
        rw [het]
        simp only
        rw [List.filter_append, hfilter_nil]
        simp
    · intro u hu
      rcases List.mem_append.mp hu with hu | hu
      · obtain ⟨e, he, heq⟩ := hcover u hu
        exact ⟨e, List.mem_append_left _ he, heq⟩
      · have hut : u = t := List.mem_singleton.mp hu
        refine ⟨(t.type, [t]), List.mem_append_right _ (List.mem_singleton.mpr rfl), ?_⟩
        rw [hut]
    · intro e he
      rcases List.mem_append.mp he with he | he
      · exact hne e he
      · rw [List.mem_singleton] at he
        subst he
        simp

theorem groupByType_groupsOK (ts : List (BTask α)) :
    GroupsOK ts (groupByType ts) := by
  induction ts using List.reverseRecOn with
  | nil =>
    refine ⟨List.nodup_nil, ?_, ?_, ?_⟩ <;> intro e he <;> simp [groupByType] at he
  | append_singleton ts t ih =>
    have : groupByType (ts ++ [t]) = addToGroups (groupByType ts) t := by
      unfold groupByType
      rw [List.foldl_append]
      rfl
    rw [this]
    exact groupsOK_add ts (groupByType ts) t ih

theorem group_eq_filter {ts : List (BTask α)} {ty : String}
    {g : List (BTask α)} (h : (ty, g) ∈ groupByType ts) :
    g = ts.filter (fun t => t.type = ty) :=
  (groupByType_groupsOK ts).2.1 (ty, g) h

theorem group_sublist {ts : List (BTask α)} {ty : String}
    {g : List (BTask α)} (h : (ty, g) ∈ groupByType ts) :
    List.Sublist g ts := by
  rw [group_eq_filter h]
  exact List.filter_sublist ts

theorem group_nonempty {ts : List (BTask α)} {ty : String}
    {g : List (BTask α)} (h : (ty, g) ∈ groupByType ts) : g ≠ [] :=
  (groupByType_groupsOK ts).2.2.2 (ty, g) h

/-- Every emission of the grouping loop comes from a grouped entry with a
nonempty subscriber list and carries that entry, its merged envelope, and
one identical serialized payload per subscriber. -/
theorem mem_broadcastGroups {subs : String → List String}
    {serialize : ServerMessage α → String} {freshIds : Nat → String}
    {clocks : Nat → Nat} {i : Nat}
    {groups : List (String × List (BTask α))} {em : GroupEmit α}
    (h : em ∈ broadcastGroups subs serialize freshIds clocks i groups) :
    ∃ j, (em.type, em.tasks) ∈ groups ∧ subs em.type ≠ [] ∧
      em.message = createMergedMessage (freshIds j) (clocks j) em.type em.tasks ∧
      em.sends = (subs em.type).map fun c => (c, serialize em.message) := by
  induction groups generalizing i with
  | nil => simp [broadcastGroups] at h
  | cons e rest ih =>
    obtain ⟨ty, g⟩ := e
    rw [broadcastGroups] at h
    by_cases hconns : (subs ty).isEmpty
    · rw [if_pos hconns] at h
      obtain ⟨j, hmem, hsub, hmsg, hsends⟩ := ih h
      exact ⟨j, List.mem_cons_of_mem _ hmem, hsub, hmsg, hsends⟩
    · rw [if_neg hconns] at h
      rcases List.mem_cons.mp h with rfl | h
      · refine ⟨i, List.mem_cons_self _ _, ?_, rfl, rfl⟩
        simpa [List.isEmpty_iff] using hconns
      · obtain ⟨j, hmem, hsub, hmsg, hsends⟩ := ih h
        exact ⟨j, List.mem_cons_of_mem _ hmem, hsub, hmsg, hsends⟩

/-- Every grouped entry whose type has a subscriber is emitted. -/
theorem broadcastGroups_covers {subs : String → List String}
    {serialize : ServerMessage α → String} {freshIds : Nat → String}
    {clocks : Nat → Nat} {i : Nat}
    {groups : List (String × List (BTask α))} {ty : String}
    {g : List (BTask α)}
    (hmem : (ty, g) ∈ groups) (hsub : subs ty ≠ []) :
    ∃ em ∈ broadcastGroups subs serialize freshIds clocks i groups,
      em.type = ty ∧ em.tasks = g := by
  induction groups generalizing i with
  | nil => simp at hmem
  | cons e rest ih =>
    obtain ⟨ty', g'⟩ := e
    rw [broadcastGroups]
    rcases List.mem_cons.mp hmem with heq | hmem'
    · cases heq
      have hconns : ¬(subs ty).isEmpty := by
        simpa [List.isEmpty_iff] using hsub
      rw [if_neg hconns]
      exact ⟨_, List.mem_cons_self _ _, rfl, rfl⟩
    · by_cases hconns : (subs ty').isEmpty
      · rw [if_pos hconns]
        exact ih hmem'
      · rw [if_neg hconns]
        obtain ⟨em, hem, h1, h2⟩ := ih (i := i + 1) hmem'
        exact ⟨em, List.mem_cons_of_mem _ hem, h1, h2⟩

end Sched

namespace Sched

variable {α : Type}

theorem createMergedMessage_single (freshId : String) (now : Nat)
    (ty : String) (t : BTask α) :
    createMergedMessage freshId now ty [t] =
      { id := freshId, type := ty, timestamp := now,
        direction := "server-to-client", event := t.event,
        data := .plain t.data } := rfl

theorem createMergedMessage_multi (freshId : String) (now : Nat)
    (ty : String) (a b : BTask α) (rest : List (BTask α)) :
    createMergedMessage freshId now ty (a :: b :: rest) =
      { id := freshId, type := ty, timestamp := now,
        direction := "server-to-client", event := "batch_update",
        data := .batch ((a :: b :: rest).map fun t => ⟨t.event, t.data, t.timestamp⟩) } := rfl

/-- What one drain emission satisfies, given its membership. -/
theorem drain_emit_spec {batchSize : Nat} {subs : String → List String}
    {serialize : ServerMessage α → String} {freshIds : Nat → String}
    {clocks : Nat → Nat} {q : List (BTask α)} {em : GroupEmit α}
    (h : em ∈ (drainStep batchSize subs serialize freshIds clocks q).1) :
    subs em.type ≠ [] ∧
    em.tasks ≠ [] ∧
    em.tasks = (takeBatch batchSize q).filter (fun t => t.type = em.type) ∧
    em.tasks.Pairwise taskLE ∧
    (∀ t, em.tasks = [t] →
       em.message.event = t.event ∧ em.message.data = SData.plain t.data) ∧
    (1 < em.tasks.length →
       em.message.event = "batch_update" ∧
       em.message.data =
         SData.batch (em.tasks.map fun t => ⟨t.event, t.data, t.timestamp⟩)) ∧
    em.sends = (subs em.type).map (fun c => (c, serialize em.message)) ∧
    (∀ p ∈ em.sends, p.2 = serialize em.message) := by
  obtain ⟨j, hmem, hsub, hmsg, hsends⟩ := mem_broadcastGroups h
  have hfilter := group_eq_filter hmem
  have hnonempty := group_nonempty hmem
  have hpw : em.tasks.Pairwise taskLE :=
    (takeBatch_sorted batchSize q).sublist (by
      rw [hfilter]
      exact List.filter_sublist _)
  refine ⟨hsub, hnonempty, hfilter, hpw, ?_, ?_, hsends, ?_⟩
  · intro t ht
    rw [hmsg, ht, createMergedMessage_single]
    exact ⟨rfl, rfl⟩
  · intro hlen
    match hts : em.tasks with
    | [] => simp [hts] at hlen
    | [t] => simp [hts] at hlen
    | a :: b :: rest =>
      rw [hmsg, hts, createMergedMessage_multi]
      exact ⟨rfl, rfl⟩
  · intro p hp
    rw [hsends] at hp
    obtain ⟨c, _, rfl⟩ := List.mem_map.mp hp
    rfl

end Sched

/-- Claim C6: a drain sorts the whole queue by (priority, timestamp),
takes a prefix of up to broadcastBatchSize tasks, and groups it by type;
each group with at least one matching subscriber produces exactly one
envelope — a singleton group keeps its task's event and data, a larger
group becomes one batch_update carrying the ordered events list — and
the envelope is serialized once, the same string going to every
recipient. -/
theorem claim_C6_drain (α : Type) (batchSize : Nat)
    (subs : String → List String) (serialize : Sched.ServerMessage α → String)
    (freshIds : Nat → String) (clocks : Nat → Nat) (q : List (Sched.BTask α)) :
    (Sched.takeBatch batchSize q).length = min batchSize q.length ∧
    (Sched.takeBatch batchSize q).Pairwise Sched.taskLE ∧
    List.Perm (Sched.takeBatch batchSize q ++ Sched.restAfterBatch batchSize q) q ∧
    (∀ em ∈ (Sched.drainStep batchSize subs serialize freshIds clocks q).1,
       subs em.type ≠ [] ∧
       em.tasks ≠ [] ∧
       em.tasks = (Sched.takeBatch batchSize q).filter (fun t => t.type = em.type) ∧
       (∀ t, em.tasks = [t] →
          em.message.event = t.event ∧ em.message.data = Sched.SData.plain t.data) ∧
       (1 < em.tasks.length →
          em.message.event = "batch_update" ∧
          em.message.data =
            Sched.SData.batch (em.tasks.map fun t => ⟨t.event, t.data, t.timestamp⟩)) ∧
       em.sends = (subs em.type).map (fun c => (c, serialize em.message)) ∧
       (∀ p ∈ em.sends, p.2 = serialize em.message)) ∧
    (∀ ty g, (ty, g) ∈ Sched.groupByType (Sched.takeBatch batchSize q) →
       subs ty ≠ [] →
       ∃ em ∈ (Sched.drainStep batchSize subs serialize freshIds clocks q).1,
         em.type = ty ∧ em.tasks = g) := by
  refine ⟨?_, Sched.takeBatch_sorted batchSize q, ?_, ?_, ?_⟩
  · rw [Sched.takeBatch, List.length_take, (Sched.sortQueue_perm q).length_eq]
  · rw [Sched.takeBatch_append_rest]
    exact Sched.sortQueue_perm q
  · intro em hem
    obtain ⟨h1, h2, h3, _, h5, h6, h7, h8⟩ := Sched.drain_emit_spec hem
    exact ⟨h1, h2, h3, h5, h6, h7, h8⟩
  · intro ty g hmem hsub
    exact Sched.broadcastGroups_covers hmem hsub

/-- Witness for claim C6: a concrete drain of two status tasks and one
stats task with one subscriber each; the status group merges into a
batch_update envelope whose payload string reaches the lone recipient. -/
theorem claim_C6_drain_witness :
    (Sched.takeBatch 100
      [(⟨"status", "status_update", (0 : Nat), Sched.MPriority.normal, 10⟩ : Sched.BTask Nat),
       ⟨"status", "status_update", 1, Sched.MPriority.normal, 20⟩,
       ⟨"stats", "stats_update", 2, Sched.MPriority.normal, 15⟩]).length =
      min 100 3 := by
  exact (claim_C6_drain Nat 100 (fun _ => ["c1"]) (fun _ => "payload")
    (fun _ => "id") (fun _ => 7)
    [⟨"status", "status_update", 0, Sched.MPriority.normal, 10⟩,
     ⟨"status", "status_update", 1, Sched.MPriority.normal, 20⟩,
     ⟨"stats", "stats_update", 2, Sched.MPriority.normal, 15⟩]).1

/-- Claim C4 (amended): within one batch group the events are ordered by
the originating tasks' (priority, timestamp); timestamps are
non-decreasing among tasks of equal priority — in particular whenever the
whole group shares one priority — though a higher-priority event may
precede a lower-priority one bearing a smaller timestamp. -/
theorem claim_C4_batch_order (α : Type) (batchSize : Nat)
    (subs : String → List String) (serialize : Sched.ServerMessage α → String)
    (freshIds : Nat → String) (clocks : Nat → Nat) (q : List (Sched.BTask α)) :
    ∀ em ∈ (Sched.drainStep batchSize subs serialize freshIds clocks q).1,
      em.tasks.Pairwise Sched.taskLE ∧
      (∀ p : Sched.MPriority, (∀ t ∈ em.tasks, t.priority = p) →
         List.Chain' (fun a b : Nat => a ≤ b) (em.tasks.map (fun t => t.timestamp))) ∧
      (1 < em.tasks.length →
         Sched.eventTimestamps em.message = em.tasks.map (fun t => t.timestamp)) := by
  intro em hem
  obtain ⟨_, _, _, hpw, _, h6, _, _⟩ := Sched.drain_emit_spec hem
  refine ⟨hpw, ?_, ?_⟩
  · intro p hp
    have hts : em.tasks.Pairwise (fun a b => a.timestamp ≤ b.timestamp) := by
      refine hpw.imp_of_mem ?_
      intro a b ha hb hab
      rcases hab with hlt | ⟨_, hle⟩
      · rw [hp a ha, hp b hb] at hlt
        exact absurd hlt (lt_irrefl _)
      · exact hle
    rw [List.chain'_map]
    exact hts.chain'
  · intro hlen
    obtain ⟨_, h6b⟩ := h6 hlen
    rw [Sched.eventTimestamps, h6b]
    simp

/-- Witness for claim C4: a drained group of two equal-priority status
tasks has non-decreasing timestamps inside its batch_update events. -/
theorem claim_C4_batch_order_witness :
    List.Chain' (fun a b : Nat => a ≤ b)
      (((⟨"status",
          [⟨"status", "e1", (0 : Nat), Sched.MPriority.normal, 10⟩,
           ⟨"status", "e2", 1, Sched.MPriority.normal, 20⟩],
          Sched.createMergedMessage "id" 7 "status"
            [⟨"status", "e1", 0, Sched.MPriority.normal, 10⟩,
             ⟨"status", "e2", 1, Sched.MPriority.normal, 20⟩],
          [("c1", "payload")]⟩ : Sched.GroupEmit Nat)).tasks.map
        (fun t => t.timestamp)) := by
  refine ((claim_C4_batch_order Nat 100 (fun _ => ["c1"]) (fun _ => "payload")
    (fun _ => "id") (fun _ => 7)
    [⟨"status", "e1", 0, Sched.MPriority.normal, 10⟩,
     ⟨"status", "e2", 1, Sched.MPriority.normal, 20⟩])
    _ (by decide)).2.1 Sched.MPriority.normal (by decide)

/-- Counterexample to claim C4 as stated: with one low task at timestamp
50 and one high task at timestamp 100 of the same type, the drained group
merges into a batch_update whose event timestamps are 100 then 50 —
not non-decreasing. -/
theorem claim_C4_counterexample :
    ((Sched.drainStep 100 (fun _ => ["c1"]) (fun _ => "payload")
        (fun _ => "id") (fun _ => 7)
        [(⟨"status", "e1", (0 : Nat), Sched.MPriority.low, 50⟩ : Sched.BTask Nat),
         ⟨"status", "e2", 0, Sched.MPriority.high, 100⟩]).1.map
        (fun em => Sched.eventTimestamps em.message)) = [[100, 50]] ∧
    ¬ List.Chain' (fun a b : Nat => a ≤ b) [100, 50] := by
  refine ⟨by decide, ?_⟩
  intro h
  rw [List.chain'_cons] at h
  exact absurd h.1 (by norm_num)

namespace MRouter

variable {κ : Type}

theorem errorFree_addCallback (reg : Registry κ) (ty : String) (cb : κ)
    (hty : ty ≠ "error") (h : errorFree reg) :
    errorFree (addCallback reg ty cb) := by
  induction reg with
  | nil =>
    intro e he
    rw [show addCallback ([] : Registry κ) ty cb = [(ty, [cb])] from rfl] at he
    rw [List.mem_singleton] at he
    rw [he]
    exact hty
  | cons x rest ih =>
    obtain ⟨t, cbs⟩ := x
    intro e he
    rw [addCallback] at he
    split at he
    · rcases List.mem_cons.mp he with rfl | he
      · exact h (t, cbs) (List.mem_cons_self _ _)
      · exact h e (List.mem_cons_of_mem _ he)
    · rcases List.mem_cons.mp he with rfl | he
      · exact h (t, cbs) (List.mem_cons_self _ _)
      · exact ih (fun e' he' => h e' (List.mem_cons_of_mem _ he')) e he

theorem errorFree_subscribe (reg : Registry κ) (ty : String) (cb : κ)
    (h : errorFree reg) : errorFree (subscribe reg ty cb).2 := by
  rw [subscribe]
  split
  · exact h
  · rename_i hty
    refine errorFree_addCallback reg ty cb ?_ h
    simpa [RESERVED_TYPES] using hty

theorem errorFree_subscribeAll (reg : Registry κ) (reqs : List (String × κ))
    (h : errorFree reg) : errorFree (subscribeAll reg reqs) := by
  induction reqs generalizing reg with
  | nil => simpa [subscribeAll] using h
  | cons r rest ih =>
    have := errorFree_subscribe reg r.1 r.2 h
    simpa [subscribeAll, List.foldl_cons] using ih _ this

theorem getSubscriberCount_error_of_errorFree (reg : Registry κ)
    (h : errorFree reg) : getSubscriberCount reg "error" = 0 := by
  rw [getSubscriberCount]
  have : reg.find? (fun e => e.1 = "error") = none := by
    rw [List.find?_eq_none]
    intro e he
    simpa using h e he
  rw [this]

end MRouter

/-- Claim C5: starting from any registry without an entry for the
reserved type error, no sequence of subscribe requests ever produces one;
a subscribe naming error fails, leaves the registry untouched, and the
error subscriber count stays zero. -/
theorem claim_C5_reserved_type (κ : Type) (reqs : List (String × κ))
    (reg : MRouter.Registry κ) (cb : κ) (h : MRouter.errorFree reg) :
    MRouter.errorFree (MRouter.subscribeAll reg reqs) ∧
    MRouter.subscribe reg "error" cb = (false, reg) ∧
    MRouter.getSubscriberCount (MRouter.subscribeAll reg reqs) "error" = 0 := by
  refine ⟨MRouter.errorFree_subscribeAll reg reqs h, ?_, ?_⟩
  · rw [MRouter.subscribe, if_pos (by simp [MRouter.RESERVED_TYPES])]
  · exact MRouter.getSubscriberCount_error_of_errorFree _
      (MRouter.errorFree_subscribeAll reg reqs h)

/-- Witness for claim C5: from the empty registry, a run that tries to
subscribe to error among other types leaves no error entry and a zero
error subscriber count, and the direct error subscribe is refused. -/
theorem claim_C5_reserved_type_witness :
    MRouter.errorFree
      (MRouter.subscribeAll ([] : MRouter.Registry Nat)
        [("status", 1), ("error", 2), ("stats", 3)]) ∧
    MRouter.subscribe ([] : MRouter.Registry Nat) "error" 9 = (false, []) ∧
    MRouter.getSubscriberCount
      (MRouter.subscribeAll ([] : MRouter.Registry Nat)
        [("status", 1), ("error", 2), ("stats", 3)]) "error" = 0 :=
  claim_C5_reserved_type Nat [("status", 1), ("error", 2), ("stats", 3)] [] 9
    (by intro e he; simp at he)

/-- Claim C2, failing input: a client whose transport reopens while its
subscription set is non-empty but its offline queue is empty writes no
frame at all — in particular no subscribe frame — because
flushMessageQueue returns before the resubscription step when the queue
is empty; with a queued frame present the very same path does emit the
subscribe frame after the flush, showing the early return is what skips
it.  The connection bookkeeping (connected state, reset attempt counter,
refreshed pong clock) still happens. -/
theorem claim_C2_resubscribe_skipped :
    (WSClient.handleOpen "f1" 1000
      { state := WSClient.ConnState.reconnecting, reconnectAttempts := 2,
        lastPongTime := 0, messageQueue := [],
        subscriptions := ["status", "stats"], connectionId := none }).2 = [] ∧
    (WSClient.handleOpen "f1" 1000
      { state := WSClient.ConnState.reconnecting, reconnectAttempts := 2,
        lastPongTime := 0, messageQueue := [],
        subscriptions := ["status", "stats"], connectionId := none }).1 =
      { state := WSClient.ConnState.connected, reconnectAttempts := 0,
        lastPongTime := 1000, messageQueue := [],
        subscriptions := ["status", "stats"], connectionId := none } ∧
    (WSClient.handleOpen "f1" 1000
      { state := WSClient.ConnState.reconnecting, reconnectAttempts := 2,
        lastPongTime := 0,
        messageQueue := [⟨"p1", "system", 5, "ping", none⟩],
        subscriptions := ["status", "stats"], connectionId := none }).2 =
      [⟨"p1", "system", 5, "ping", none⟩,
       ⟨"f1", "config", 1000, "subscribe", some ["status", "stats"]⟩] := by
  refine ⟨by decide, by decide, by decide⟩

/-- Claim C8: a reconnect attempt below the ceiling schedules a retry
after min(reconnectInterval * 1.5 ^ (n − 1), 30000) ms where n is the new
attempt number, keeps the counter at most maxReconnectAttempts, and does
not surface an error; at the ceiling the client enters the terminal
disconnected state, schedules nothing, and surfaces the failure. -/
theorem claim_C8_reconnect_backoff (opts : WSClient.ClientOptions)
    (s : WSClient.ClientState) :
    (opts.maxReconnectAttempts ≤ s.reconnectAttempts →
       (WSClient.attemptReconnect opts s).state.state =
         WSClient.ConnState.disconnected ∧
       (WSClient.attemptReconnect opts s).delay = none ∧
       (WSClient.attemptReconnect opts s).surfacedError = true) ∧
    (s.reconnectAttempts < opts.maxReconnectAttempts →
       (WSClient.attemptReconnect opts s).state.state =
         WSClient.ConnState.reconnecting ∧
       (WSClient.attemptReconnect opts s).state.reconnectAttempts =
         s.reconnectAttempts + 1 ∧
       (WSClient.attemptReconnect opts s).state.reconnectAttempts ≤
         opts.maxReconnectAttempts ∧
       (WSClient.attemptReconnect opts s).delay =
         some (min (opts.reconnectInterval * (3 / 2 : ℚ) ^ s.reconnectAttempts) 30000) ∧
       (∀ d, (WSClient.attemptReconnect opts s).delay = some d → d ≤ 30000) ∧
       (WSClient.attemptReconnect opts s).surfacedError = false) ∧
    (s.reconnectAttempts ≤ opts.maxReconnectAttempts →
       (WSClient.attemptReconnect opts s).state.reconnectAttempts ≤
         opts.maxReconnectAttempts) := by
  by_cases h : opts.maxReconnectAttempts ≤ s.reconnectAttempts
  · rw [WSClient.attemptReconnect, if_pos h]
    refine ⟨fun _ => ⟨rfl, rfl, rfl⟩, fun hlt => absurd hlt (not_lt.mpr h), fun hle => ?_⟩
    simpa using hle
  · rw [WSClient.attemptReconnect, if_neg h]
    push_neg at h
    refine ⟨fun hge => absurd hge (not_le.mpr h), fun _ => ?_, fun _ => h⟩
    refine ⟨rfl, ?_, h, ?_, ?_, rfl⟩
    · simp
    · simp
    · intro d hd
      simp only [Option.some.injEq] at hd
      rw [← hd]
      exact min_le_right _ _

/-- Witness for claim C8 at the default options: the third attempt (two
attempts already made) is scheduled after min(3000 * 1.5 ^ 2, 30000) =
6750 ms and the counter stays within the default ceiling of five. -/
theorem claim_C8_reconnect_backoff_witness :
    (WSClient.attemptReconnect WSClient.defaultOptions
      { state := WSClient.ConnState.reconnecting, reconnectAttempts := 2,
        lastPongTime := 0, messageQueue := [], subscriptions := [],
        connectionId := none }).delay = some 6750 ∧
    (WSClient.attemptReconnect WSClient.defaultOptions
      { state := WSClient.ConnState.reconnecting, reconnectAttempts := 2,
        lastPongTime := 0, messageQueue := [], subscriptions := [],
        connectionId := none }).state.reconnectAttempts ≤ 5 := by
  have h := (claim_C8_reconnect_backoff WSClient.defaultOptions
    { state := WSClient.ConnState.reconnecting, reconnectAttempts := 2,
      lastPongTime := 0, messageQueue := [], subscriptions := [],
      connectionId := none }).2.1 (by decide)
  refine ⟨?_, h.2.2.1⟩
  rw [h.2.2.2.1]
  norm_num [WSClient.defaultOptions]

/-- Claim C10: a parsed pong frame only refreshes lastPongTime and is not
forwarded to onMessage; every other parsed frame is forwarded exactly
once with lastPongTime untouched, a connected frame carrying a
connectionId additionally recording it first. -/
theorem claim_C10_message_dispatch (s : WSClient.ClientState) (now : Nat)
    (m : WSClient.InMessage) :
    (m.event = "pong" →
       WSClient.handleMessage now s m = ({ s with lastPongTime := now }, [])) ∧
    (m.event ≠ "pong" →
       (WSClient.handleMessage now s m).2 = [m] ∧
       (WSClient.handleMessage now s m).1.lastPongTime = s.lastPongTime ∧
       (∀ cid, m.event = "connected" → m.connectionId = some cid →
          (WSClient.handleMessage now s m).1 = { s with connectionId := some cid }) ∧
       (m.event ≠ "connected" → (WSClient.handleMessage now s m).1 = s) ∧
       (m.connectionId = none → (WSClient.handleMessage now s m).1 = s)) := by
  by_cases hp : m.event = "pong"
  · refine ⟨fun _ => ?_, fun hnp => absurd hp hnp⟩
    rw [WSClient.handleMessage, if_pos hp]
  · refine ⟨fun hpp => absurd hpp hp, fun _ => ?_⟩
    rw [WSClient.handleMessage, if_neg hp]
    by_cases hc : m.event = "connected"
    · rw [if_pos hc]
      match hcid : m.connectionId with
      | some cid =>
        refine ⟨rfl, rfl, ?_, fun hnc => absurd hc hnc, ?_⟩
        · intro cid' _ hcid'
          simp only [Option.some.injEq] at hcid'
          subst hcid'
          rfl
        · intro hnone
          exact absurd hnone (by simp)
      | none =>
        exact ⟨rfl, rfl, fun cid _ hcid' => absurd hcid' (by simp),
          fun _ => rfl, fun _ => rfl⟩
    · rw [if_neg hc]
      exact ⟨rfl, rfl, fun cid hcc _ => absurd hcc hc, fun _ => rfl, fun _ => rfl⟩

/-- Witness for claim C10: a pong refreshes the pong clock silently, and
a status_update frame is forwarded unchanged. -/
theorem claim_C10_message_dispatch_witness :
    WSClient.handleMessage 99
      { state := WSClient.ConnState.connected, reconnectAttempts := 0,
        lastPongTime := 0, messageQueue := [], subscriptions := [],
        connectionId := none }
      ⟨"pong", none⟩ =
      ({ state := WSClient.ConnState.connected, reconnectAttempts := 0,
         lastPongTime := 99, messageQueue := [], subscriptions := [],
         connectionId := none }, []) ∧
    (WSClient.handleMessage 99
      { state := WSClient.ConnState.connected, reconnectAttempts := 0,
        lastPongTime := 0, messageQueue := [], subscriptions := [],
        connectionId := none }
      ⟨"status_update", none⟩).2 = [⟨"status_update", none⟩] := by
  refine ⟨?_, ?_⟩
  · exact (claim_C10_message_dispatch
      { state := WSClient.ConnState.connected, reconnectAttempts := 0,
        lastPongTime := 0, messageQueue := [], subscriptions := [],
        connectionId := none } 99 ⟨"pong", none⟩).1 (by decide)
  · exact ((claim_C10_message_dispatch
      { state := WSClient.ConnState.connected, reconnectAttempts := 0,
        lastPongTime := 0, messageQueue := [], subscriptions := [],
        connectionId := none } 99 ⟨"status_update", none⟩).2 (by decide)).1

namespace CDet

theorem mem_detectStatusChanges {oldS newS : SystemStatus} {c : Change} :
    c ∈ detectStatusChanges oldS newS ↔
      ∃ f ∈ fieldsToMonitor, statusValue oldS f ≠ statusValue newS f ∧
        c = { field := f, oldValue := statusValue oldS f,
              newValue := statusValue newS f,
              delta := match statusValue oldS f, statusValue newS f with
                | .num a, .num b => some (b - a)
                | _, _ => none } := by
  rw [detectStatusChanges, List.mem_filterMap]
  constructor
  · rintro ⟨f, hf, hsome⟩
    by_cases hne : statusValue oldS f ≠ statusValue newS f
    · rw [if_pos hne] at hsome
      simp only [Option.some.injEq] at hsome
      exact ⟨f, hf, hne, hsome.symm⟩
    · rw [if_neg hne] at hsome
      exact absurd hsome (by simp)
  · rintro ⟨f, hf, hne, hc⟩
    refine ⟨f, hf, ?_⟩
    rw [if_pos hne, hc]

/-- The scan for a critical changed field equals the direct condition on
the two samples: cpu or memory changed and its new value is above its
threshold. -/
theorem hasCritical_iff (cfg : DetectorConfig) (oldS newS : SystemStatus) :
    ((detectStatusChanges oldS newS).any fun c =>
        (c.field = StatusField.cpuUsage ∨ c.field = StatusField.memoryUsage) ∧
          valueAsNum c.newValue >
            (if c.field = StatusField.cpuUsage then cfg.cpuThreshold
             else cfg.memoryThreshold)) = true ↔
      ((oldS.cpuUsage ≠ newS.cpuUsage ∧ newS.cpuUsage > cfg.cpuThreshold) ∨
       (oldS.memoryUsage ≠ newS.memoryUsage ∧ newS.memoryUsage > cfg.memoryThreshold)) := by
  rw [List.any_eq_true]
  constructor
  · rintro ⟨c, hc, hcond⟩
    rw [mem_detectStatusChanges] at hc
    obtain ⟨f, _, hne, rfl⟩ := hc
    simp only [decide_eq_true_eq] at hcond
    obtain ⟨hfield, hgt⟩ := hcond
    cases f with
    | cpuUsage =>
      refine Or.inl ⟨?_, ?_⟩
      · intro heq
        exact hne (by rw [statusValue, statusValue, heq])
      · simpa [statusValue, valueAsNum] using hgt
    | memoryUsage =>
      refine Or.inr ⟨?_, ?_⟩
      · intro heq
        exact hne (by rw [statusValue, statusValue, heq])
      · simpa [statusValue, valueAsNum] using hgt
    | diskUsage => simp at hfield
    | activeConnections => simp at hfield
    | systemOnline => simp at hfield
  · rintro (⟨hne, hgt⟩ | ⟨hne, hgt⟩)
    · refine ⟨⟨StatusField.cpuUsage, statusValue oldS StatusField.cpuUsage,
        statusValue newS StatusField.cpuUsage,
        some (newS.cpuUsage - oldS.cpuUsage)⟩, ?_, ?_⟩
      · rw [mem_detectStatusChanges]
        refine ⟨StatusField.cpuUsage, by decide, ?_, ?_⟩
        · simpa [statusValue] using hne
        · simp [statusValue]
      · simp [statusValue, valueAsNum, hgt]
    · refine ⟨⟨StatusField.memoryUsage, statusValue oldS StatusField.memoryUsage,
        statusValue newS StatusField.memoryUsage,
        some (newS.memoryUsage - oldS.memoryUsage)⟩, ?_, ?_⟩
      · rw [mem_detectStatusChanges]
        refine ⟨StatusField.memoryUsage, by decide, ?_, ?_⟩
        · simpa [statusValue] using hne
        · simp [statusValue]
      · simp [statusValue, valueAsNum, hgt]

end CDet

/-- Claim C9 (amended): when at least one monitored field changed, the
enqueued status_update carries priority high exactly when some changed
critical field (cpu or memory) has its new value above its configured
threshold — also when the old value was already above it, no upward
crossing being required — else normal when more than three fields
changed, else low. -/
theorem claim_C9_status_priority (cfg : CDet.DetectorConfig)
    (oldS newS : CDet.SystemStatus)
    (h : CDet.detectStatusChanges oldS newS ≠ []) :
    CDet.statusStep cfg oldS newS =
      some (CDet.calculateStatusPriority cfg (CDet.detectStatusChanges oldS newS)) ∧
    CDet.calculateStatusPriority cfg (CDet.detectStatusChanges oldS newS) =
      (if (oldS.cpuUsage ≠ newS.cpuUsage ∧ newS.cpuUsage > cfg.cpuThreshold) ∨
          (oldS.memoryUsage ≠ newS.memoryUsage ∧ newS.memoryUsage > cfg.memoryThreshold)
       then Sched.MPriority.high
       else if 3 < (CDet.detectStatusChanges oldS newS).length then
         Sched.MPriority.normal
       else Sched.MPriority.low) := by
  constructor
  · rw [CDet.statusStep]
    simp only [List.isEmpty_iff]
    rw [if_neg h]
  · rw [CDet.calculateStatusPriority]
    by_cases hcrit : (oldS.cpuUsage ≠ newS.cpuUsage ∧ newS.cpuUsage > cfg.cpuThreshold) ∨
        (oldS.memoryUsage ≠ newS.memoryUsage ∧ newS.memoryUsage > cfg.memoryThreshold)
    · rw [if_pos ((CDet.hasCritical_iff cfg oldS newS).mpr hcrit), if_pos hcrit]
    · rw [if_neg (fun hx => hcrit ((CDet.hasCritical_iff cfg oldS newS).mp hx)),
        if_neg hcrit]

/-- Witness for claim C9: a cpu change from 70 to 85 with threshold 80
leads the detector to emit at the computed priority. -/
theorem claim_C9_status_priority_witness :
    CDet.statusStep CDet.defaultConfig
      ⟨true, 70, 50, 65, 2⟩ ⟨true, 85, 50, 65, 2⟩ =
      some (CDet.calculateStatusPriority CDet.defaultConfig
        (CDet.detectStatusChanges ⟨true, 70, 50, 65, 2⟩ ⟨true, 85, 50, 65, 2⟩)) :=
  (claim_C9_status_priority CDet.defaultConfig
    ⟨true, 70, 50, 65, 2⟩ ⟨true, 85, 50, 65, 2⟩ (by decide)).1

/-- Counterexample to claim C9 as stated: a cpu sample moving from 90 to
85 under threshold 80 changes exactly one field and crosses no threshold
upward — the old value was already above it — yet the code classifies the
update as high priority, where the claim mandates low. -/
theorem claim_C9_counterexample :
    CDet.statusStep CDet.defaultConfig
      ⟨true, 90, 50, 65, 2⟩ ⟨true, 85, 50, 65, 2⟩ = some Sched.MPriority.high ∧
    (CDet.detectStatusChanges ⟨true, 90, 50, 65, 2⟩ ⟨true, 85, 50, 65, 2⟩).length = 1 ∧
    (90 : ℚ) > CDet.defaultConfig.cpuThreshold ∧
    (85 : ℚ) > CDet.defaultConfig.cpuThreshold := by
  refine ⟨by decide, by decide, ?_, ?_⟩ <;> norm_num [CDet.defaultConfig]

/-- Claim C7: the level function maps a value above threshold + 15 to
critical, above the threshold to warning, and anything else to info; a
step whose fresh level differs from the stored one (info when nothing is
stored) emits one health_alert at high priority exactly for critical and
normal otherwise when the fresh level is not info, emits one
health_recovery at normal priority when the fresh level is info and the
stored one was not, and emits nothing when the level is unchanged; the
spec scenario 70, 85, 96, 85, 70 at threshold 80 yields warning alert,
critical alert at high, warning alert, then recovery. -/
theorem claim_C7_health_machine (last : Option (ℚ × String))
    (value threshold : ℚ) :
    (threshold + 15 < value → CDet.getAlertLevel value threshold = "critical") ∧
    (threshold < value → value ≤ threshold + 15 →
       CDet.getAlertLevel value threshold = "warning") ∧
    (value ≤ threshold → CDet.getAlertLevel value threshold = "info") ∧
    (CDet.getAlertLevel value threshold ≠ ((last.map Prod.snd).getD "info") →
       CDet.getAlertLevel value threshold ≠ "info" →
       (CDet.healthStep last value threshold).1 =
         [⟨"health_alert",
           if CDet.getAlertLevel value threshold = "critical" then
             Sched.MPriority.high
           else Sched.MPriority.normal⟩]) ∧
    (CDet.getAlertLevel value threshold = "info" →
       ((last.map Prod.snd).getD "info") ≠ "info" →
       (CDet.healthStep last value threshold).1 =
         [⟨"health_recovery", Sched.MPriority.normal⟩]) ∧
    (CDet.getAlertLevel value threshold = ((last.map Prod.snd).getD "info") →
       (CDet.healthStep last value threshold).1 = []) ∧
    (CDet.healthRun 80 none [70, 85, 96, 85, 70]).1 =
      [⟨"health_alert", Sched.MPriority.normal⟩,
       ⟨"health_alert", Sched.MPriority.high⟩,
       ⟨"health_alert", Sched.MPriority.normal⟩,
       ⟨"health_recovery", Sched.MPriority.normal⟩] := by
  refine ⟨?_, ?_, ?_, ?_, ?_, ?_, ?_⟩
  case refine_7 =>
    norm_num [CDet.healthRun, CDet.healthStep, CDet.getAlertLevel]
    decide
  · intro h
    rw [CDet.getAlertLevel, if_pos h]
  · intro h1 h2
    rw [CDet.getAlertLevel, if_neg (not_lt.mpr h2), if_pos h1]
  · intro h
    rw [CDet.getAlertLevel, if_neg, if_neg (not_lt.mpr h)]
    exact not_lt.mpr (le_trans h (by linarith))
  · intro hne hni
    cases last with
    | none =>
      rw [CDet.healthStep]
      simp only [if_pos]
      rw [if_pos (by simpa using hni)]
    | some l =>
      have hl : l.2 ≠ CDet.getAlertLevel value threshold := by
        intro heq
        exact hne (by simpa using heq.symm)
      rw [CDet.healthStep]
      simp only [decide_eq_true_eq]
      rw [if_pos (by simpa using hl), if_pos (by simpa using hni)]
  · intro hinfo hpast
    cases last with
    | none => simp at hpast
    | some l =>
      have hl : l.2 ≠ CDet.getAlertLevel value threshold := by
        rw [hinfo]
        simpa using hpast
      rw [CDet.healthStep]
      simp only [decide_eq_true_eq]
      rw [if_pos (by simpa using hl), if_neg (by simp [hinfo]),
        if_pos (by simpa using hpast)]
  · intro heq
    cases last with
    | none =>
      have hinfo : CDet.getAlertLevel value threshold = "info" := by simpa using heq
      rw [CDet.healthStep]
      simp only [if_pos]
      rw [if_neg (by simp [hinfo])]
    | some l =>
      have hl : l.2 = CDet.getAlertLevel value threshold := by simpa using heq.symm
      rw [CDet.healthStep]
      simp only [decide_eq_true_eq]
      rw [if_neg (by simp [hl])]

/-- Witness for claim C7: from a stored warning level at threshold 80, a
sample of 70 emits exactly one health_recovery at normal priority. -/
theorem claim_C7_health_machine_witness :
    (CDet.healthStep (some ((85 : ℚ), "warning")) 70 80).1 =
      [⟨"health_recovery", Sched.MPriority.normal⟩] :=
  (claim_C7_health_machine (some ((85 : ℚ), "warning")) 70 80).2.2.2.2.1
    (by norm_num [CDet.getAlertLevel]) (by decide)
